import Mathlib

/-!
Verification development for the Bastion-Server infrastructure agent.

This file gives a shallow embedding, in Lean 4, of the security-relevant
core of the agent: the input sanitizer (`agent/security/sanitizer.py`),
the allowlist engine (`agent/security/allowlist.py`), the approval gate
(`agent/security/approval.py`), the audit events (`agent/security/audit.py`),
the tool-result model (`agent/tools/base.py`), the dispatch pipeline
(`agent/tools/registry.py`), the history trimmer (`agent/client.py`) and
the session store (`agent/sessions.py`).

Python strings are modelled as `List Char` (`PyStr`); Python values that
may appear in tool inputs are modelled by the mutual inductive
`PyVal`/`PyValList`/`PyDict`.  Machine-level caveats of the embedding are
noted next to each definition.  Several scanners use an explicit fuel
argument so that they are structurally recursive and reduce inside the
kernel; in each case the fuel is chosen so that it can never run out on
the actual input (each step consumes at least one character).
-/

set_option autoImplicit false

deriving instance DecidableEq for Except

/-- Python strings, modelled as lists of characters. -/
abbrev PyStr := List Char

/-- Convert a Lean string literal into the `PyStr` representation. -/
def pystr (s : String) : PyStr := s.toList

/-- The ESC character `\x1b`. -/
def escChar : Char := Char.ofNat 27

/-- The BEL character `\x07`. -/
def belChar : Char := Char.ofNat 7

/-- The backtick character. -/
def backtickChar : Char := Char.ofNat 96

/-- The opening-brace character. -/
def lbraceChar : Char := Char.ofNat 123

/-- The single-quote character. -/
def squoteChar : Char := Char.ofNat 39

/-- The double-quote character. -/
def dquoteChar : Char := Char.ofNat 34

/-- Python `str.isspace`-style whitespace, restricted to the ASCII range
(space, tab, newline, carriage return, form feed, vertical tab); this is
what `\s` and `str.strip()` use on the inputs the agent handles. -/
def isPySpace (c : Char) : Bool :=
  c = ' ' || c = '\t' || c = '\n' || c = '\x0d' || c = Char.ofNat 12 || c = Char.ofNat 11

/-- ASCII word character, the `\w` class of Python regexes on ASCII text. -/
def isWordChar (c : Char) : Bool :=
  c.isAlpha || c.isDigit || c = '_'

/-- ASCII letter, the `[A-Za-z]` class. -/
def isAsciiLetter (c : Char) : Bool := c.isAlpha

/-- Python `str.strip()` (ASCII whitespace). -/
def pyStrip (s : PyStr) : PyStr :=
  ((s.dropWhile isPySpace).reverse.dropWhile isPySpace).reverse

/-- Python `str.rstrip(c)` for a single strip character. -/
def pyRstrip (c : Char) (s : PyStr) : PyStr :=
  (s.reverse.dropWhile (fun d => d = c)).reverse

/-- Python `str.lower()`; ASCII case folding, which agrees with Python on
the ASCII inputs the agent handles. -/
def pyLower (s : PyStr) : PyStr := s.map Char.toLower

/-- Python substring containment `needle in hay`. -/
def strContains (hay needle : PyStr) : Bool :=
  if List.isPrefixOf needle hay then true else
    match hay with
    | [] => false
    | _ :: t => strContains t needle

/-- Python `repr` of a string: single-quoted unless the string contains a
single quote and no double quote; backslashes, quotes and the control
characters the sanitizer cares about are escaped.  Faithful to CPython on
the printable-ASCII strings that appear in the agent's messages. -/
def pyReprStr (s : PyStr) : PyStr :=
  let q : Char :=
    if s.contains squoteChar && !(s.contains dquoteChar) then dquoteChar else squoteChar
  let escapeChar : Char → PyStr := fun c =>
    if c = '\\' then ['\\', '\\']
    else if c = q then ['\\', q]
    else if c = '\n' then ['\\', 'n']
    else if c = '\x0d' then ['\\', 'r']
    else if c = '\t' then ['\\', 't']
    else if c = Char.ofNat 0 then ['\\', 'x', '0', '0']
    else [c]
  q :: (s.flatMap escapeChar) ++ [q]

/-- Decimal rendering of a natural number as a `PyStr`. -/
def natStr (n : Nat) : PyStr := (toString n).toList

/-- Decimal rendering of an integer as a `PyStr`. -/
def intStr (n : Int) : PyStr := (toString n).toList

mutual
/-- Python values that can appear in a tool input: strings, numbers,
booleans, `None`, lists, tuples and string-keyed dicts. -/
inductive PyVal where
  | str : PyStr → PyVal
  | int : Int → PyVal
  | bool : Bool → PyVal
  | none : PyVal
  | list : PyValList → PyVal
  | tuple : PyValList → PyVal
  | dict : PyDict → PyVal
  deriving DecidableEq

/-- A Python list or tuple body. -/
inductive PyValList where
  | nil : PyValList
  | cons : PyVal → PyValList → PyValList
  deriving DecidableEq

/-- A Python dict with string keys, in insertion order. -/
inductive PyDict where
  | nil : PyDict
  | cons : PyStr → PyVal → PyDict → PyDict
  deriving DecidableEq
end

/-- Python `d.get(k)`: the value stored under the first matching key. -/
def PyDict.get : PyDict → PyStr → Option PyVal
  | .nil, _ => Option.none
  | .cons k v rest, key => if k = key then some v else rest.get key

/-- Python `k in d`. -/
def PyDict.hasKey (d : PyDict) (key : PyStr) : Bool :=
  (d.get key).isSome

/-- Python truthiness of a value (`bool(v)`). -/
def pyTruthy : PyVal → Bool
  | .str s => !s.isEmpty
  | .int n => n ≠ 0
  | .bool b => b
  | .none => false
  | .list .nil => false
  | .list _ => true
  | .tuple .nil => false
  | .tuple _ => true
  | .dict .nil => false
  | .dict _ => true

/-! ### Sanitizer (`agent/security/sanitizer.py`) -/

namespace Sanitizer

/-- Matcher for the regex class `[;&|]` (pattern 1 of `FORBIDDEN_PATTERNS`). -/
def hasChainingChar (s : PyStr) : Bool :=
  s.any (fun c => c = ';' || c = '&' || c = '|')

/-- Matcher for the regex `\$[\({]` — a dollar immediately followed by an
opening parenthesis or brace (pattern 2). -/
def hasDollarSub : PyStr → Bool
  | [] => false
  | _ :: [] => false
  | c1 :: c2 :: rest =>
    (c1 = '$' && (c2 = '(' || c2 = lbraceChar)) || hasDollarSub (c2 :: rest)

/-- Matcher for a lone backtick (pattern 3). -/
def hasBacktick (s : PyStr) : Bool := s.contains backtickChar

/-- Matcher for the substring `..` (pattern 4). -/
def hasDotDot (s : PyStr) : Bool := strContains s ['.', '.']

/-- After a `>`, skip whitespace and require a `/` (the `\s*/` part of
patterns 5 and 6). -/
def wsThenSlash : PyStr → Bool
  | [] => false
  | c :: rest => if c = '/' then true else if isPySpace c then wsThenSlash rest else false

/-- Matcher for the regex `>\s*/` — redirect to an absolute path (pattern 5). -/
def hasRedirectAbs : PyStr → Bool
  | [] => false
  | c :: rest => (c = '>' && wsThenSlash rest) || hasRedirectAbs rest

/-- Matcher for the regex `>>\s*/` (pattern 6).  Note that any match of this
pattern also matches pattern 5 at its second `>`, so in `check_command` the
pattern-5 reason always fires first; the check is kept for fidelity. -/
def hasAppendAbs : PyStr → Bool
  | [] => false
  | c :: rest =>
    (c = '>' && (match rest with
      | c2 :: r2 => c2 = '>' && wsThenSlash r2
      | [] => false)) || hasAppendAbs rest

/-- True when `w` occurs at the head of `s` with a word boundary on each
side; `prev` is the character just before `s` in the scanned string. -/
def wordAtHead (w : PyStr) (prev : Option Char) (s : PyStr) : Bool :=
  (match prev with
   | Option.none => true
   | some c => !isWordChar c) &&
  List.isPrefixOf w s &&
  (match (s.drop w.length).head? with
   | Option.none => true
   | some c => !isWordChar c)

/-- Scan helper for `\b(eval|exec)\b`. -/
def scanEvalExec : Option Char → PyStr → Bool
  | _, [] => false
  | prev, c :: rest =>
    wordAtHead (pystr "eval") prev (c :: rest) ||
    wordAtHead (pystr "exec") prev (c :: rest) ||
    scanEvalExec (some c) rest

/-- Matcher for the regex `\b(eval|exec)\b` (pattern 7). -/
def hasEvalExecWord (s : PyStr) : Bool := scanEvalExec Option.none s

/-- Matcher for the regex class `[\n\r\x00]` (pattern 8). -/
def hasNlNulChar (s : PyStr) : Bool :=
  s.any (fun c => c = '\n' || c = '\x0d' || c = Char.ofNat 0)

/-- The `FORBIDDEN_PATTERNS` of the sanitizer, paired with the
human-readable reason reported for each (same order as the source). -/
def forbiddenPatterns : List ((PyStr → Bool) × PyStr) :=
  [ (hasChainingChar, pystr "command chaining characters (;, &, |)")
  , (hasDollarSub, pystr "command/variable substitution ($( or $\x7b)")
  , (hasBacktick, pystr "backtick substitution")
  , (hasDotDot, pystr "path traversal (..)")
  , (hasRedirectAbs, pystr "redirect to absolute path")
  , (hasAppendAbs, pystr "append to absolute path")
  , (hasEvalExecWord, pystr "eval/exec keyword")
  , (hasNlNulChar, pystr "newline/null-byte injection")
  ]

/-- Outcome of the sanitize stage when it does not return the input:
either a `SanitizationError(field, value, reason)` or an uncaught Python
`TypeError` from handing a non-string to `re.search`. -/
inductive SanExn where
  | sanitization : PyStr → PyStr → PyStr → SanExn
  | typeError : PyStr → SanExn
  deriving DecidableEq

/-- Python `str(SanitizationError(field, value, reason))`, which is the
message `Rejected {field}: {reason}` built in its constructor. -/
def sanExnStr (field reason : PyStr) : PyStr :=
  pystr "Rejected " ++ field ++ pystr ": " ++ reason

/-- Embedding of sanitizer `check_command`: try each forbidden pattern in
order and fail with the first matching reason. -/
def check_command (command : PyStr) : Except SanExn Unit :=
  match forbiddenPatterns.find? (fun pr => pr.1 command) with
  | some pr => .error (.sanitization (pystr "command") command pr.2)
  | Option.none => .ok ()

/-- Matcher for the regex class `[;&|` followed by backtick `]` used by
`check_path`. -/
def hasPathMetaChar (s : PyStr) : Bool :=
  s.any (fun c => c = ';' || c = '&' || c = '|' || c = backtickChar)

/-- Embedding of sanitizer `check_path`: the four checks, in source order. -/
def check_path (path : PyStr) : Except SanExn Unit :=
  if hasDotDot path then
    .error (.sanitization (pystr "path") path (pystr "path traversal (..)"))
  else if hasPathMetaChar path then
    .error (.sanitization (pystr "path") path (pystr "shell metacharacters in path"))
  else if hasDollarSub path then
    .error (.sanitization (pystr "path") path (pystr "command/variable substitution in path"))
  else if hasNlNulChar path then
    .error (.sanitization (pystr "path") path (pystr "newline/null-byte in path"))
  else .ok ()

/-- Matcher for the regex class `[;&|` backtick `$]` used on the name
fields. -/
def hasNameMetaChar (s : PyStr) : Bool :=
  s.any (fun c => c = ';' || c = '&' || c = '|' || c = backtickChar || c = '$')

/-- Check one of the name fields (`container`, `service`, `server`): absent
fields pass, non-string values raise `TypeError` inside `re.search`, and a
string containing a shell metacharacter raises `SanitizationError`. -/
def checkNameField (input : PyDict) (field : PyStr) : Except SanExn Unit :=
  match input.get field with
  | Option.none => .ok ()
  | some (.str v) =>
    if hasNameMetaChar v then
      .error (.sanitization field v (pystr "shell metacharacters"))
    else .ok ()
  | some _ => .error (.typeError field)

/-- Embedding of `sanitize(tool_name, tool_input)`.  Checks `command` and
`path` when present, then the fields `container`, `service`, `server` in
that order, and returns the input unchanged when every check passes.
Note the field `since` is NOT among the checked fields, exactly as in the
source. -/
def sanitize (toolName : PyStr) (input : PyDict) : Except SanExn PyDict :=
  let _ := toolName
  (match input.get (pystr "command") with
   | Option.none => .ok ()
   | some (.str c) => check_command c
   | some _ => .error (.typeError (pystr "command"))) >>= fun _ =>
  (match input.get (pystr "path") with
   | Option.none => .ok ()
   | some (.str p) => check_path p
   | some _ => .error (.typeError (pystr "path"))) >>= fun _ =>
  checkNameField input (pystr "container") >>= fun _ =>
  checkNameField input (pystr "service") >>= fun _ =>
  checkNameField input (pystr "server") >>= fun _ =>
  .ok input

end Sanitizer

/-! ### Allowlist engine (`agent/security/allowlist.py`) -/

namespace Allowlist

/-- Role permissions (`agent/config.py` `RolePermissions`), with each field
defaulting to the empty list. -/
structure RolePermissions where
  allowed_commands : List PyStr := []
  allowed_paths_read : List PyStr := []
  allowed_paths_write : List PyStr := []
  deriving DecidableEq

/-- Python `s.split(sep)` for a one-character separator: splitting at every
occurrence, keeping empty parts (so a string with `n` separators yields
`n + 1` parts). -/
def pySplit (sep : Char) : PyStr → List PyStr
  | [] => [[]]
  | c :: rest =>
    match pySplit sep rest with
    | p :: ps => if c = sep then [] :: p :: ps else (c :: p) :: ps
    | [] => [[c]]

/-- Python `sep.join(parts)` for a one-character separator. -/
def pyJoin (sep : Char) : List PyStr → PyStr
  | [] => []
  | [p] => p
  | p :: q :: rest => p ++ sep :: pyJoin sep (q :: rest)

/-- The component `..`. -/
def dotdot : PyStr := ['.', '.']

/-- One step of `posixpath.normpath`'s component loop: skip empty and `.`
components; append a component unless it is a `..` that cancels against a
previous real component; otherwise pop. -/
def normStep (initialSlashes : Nat) (acc : List PyStr) (comp : PyStr) : List PyStr :=
  if comp = [] ∨ comp = ['.'] then acc
  else if comp ≠ dotdot ∨ (initialSlashes = 0 ∧ acc = [])
        ∨ (acc ≠ [] ∧ acc.getLast? = some dotdot) then acc ++ [comp]
  else if acc ≠ [] then acc.dropLast
  else acc

/-- The number of leading slashes `posixpath.normpath` preserves: POSIX
allows exactly two initial slashes to stay; one and three or more collapse
to one. -/
def initialSlashes (path : PyStr) : Nat :=
  if path.take 1 = ['/'] then
    (if path.take 2 = ['/', '/'] ∧ path.take 3 ≠ ['/', '/', '/'] then 2 else 1)
  else 0

/-- Embedding of `os.path.normpath` (POSIX `posixpath.normpath`), which is
what `_normalize_path` calls: collapse repeated separators, drop `.`
components, resolve `..` against preceding components, preserve one or two
leading slashes. -/
def normpath (path : PyStr) : PyStr :=
  if path = [] then ['.']
  else if List.replicate (initialSlashes path) '/'
      ++ pyJoin '/' ((pySplit '/' path).foldl (normStep (initialSlashes path)) []) = []
    then ['.']
  else List.replicate (initialSlashes path) '/'
      ++ pyJoin '/' ((pySplit '/' path).foldl (normStep (initialSlashes path)) [])

/-- Embedding of `_normalize_path`. -/
def _normalize_path (path : PyStr) : PyStr := normpath path

/-- A path component surviving normalization: non-empty, not `.`, and free
of separators. -/
def CleanComp (c : PyStr) : Prop := c ≠ [] ∧ c ≠ ['.'] ∧ '/' ∉ c

/-- All `..` components of the list form a prefix: no `..` remains after
the leading run of `..`s is dropped. -/
def DdPrefixShape (l : List PyStr) : Prop :=
  dotdot ∉ l.dropWhile (fun c => c = dotdot)

/-- Bracket-expression payload of a glob pattern: negation flag and the
member ranges (a single character is the range from itself to itself). -/
structure GlobBracket where
  negated : Bool
  ranges : List (Char × Char)
  deriving DecidableEq

/-- Parse a glob bracket expression after the opening `[`, following
`fnmatch.translate`: an initial `!` negates; a `]` directly after that is a
literal member; the expression ends at the next `]`, and if none exists the
`[` is treated as a literal character (signalled by `Option.none`). -/
def parseBracket (s : PyStr) : Option (GlobBracket × PyStr) :=
  let (neg, s1) : Bool × PyStr :=
    match s with
    | '!' :: t => (true, t)
    | _ => (false, s)
  let (firstLit, s2) : List Char × PyStr :=
    match s1 with
    | ']' :: t => ([']'], t)
    | _ => ([], s1)
  let rec takeBody : PyStr → Option (PyStr × PyStr)
    | [] => Option.none
    | ']' :: t => some ([], t)
    | c :: t => (takeBody t).map (fun pr => (c :: pr.1, pr.2))
  match takeBody s2 with
  | Option.none => Option.none
  | some (body, rest) =>
    let rec toRanges : PyStr → List (Char × Char)
      | a :: '-' :: b :: t =>
        if t = [] && b = ']' then (a, a) :: ('-', '-') :: (b, b) :: []
        else (a, b) :: toRanges t
      | a :: t => (a, a) :: toRanges t
      | [] => []
    some ({ negated := neg, ranges := toRanges (firstLit ++ body) }, rest)

/-- Membership in a bracket expression. -/
def bracketMatches (b : GlobBracket) (c : Char) : Bool :=
  let inRanges := b.ranges.any (fun r => r.1 ≤ c && c ≤ r.2)
  if b.negated then !inRanges else inRanges

/-- Glob matching of `fnmatch.fnmatch` on POSIX (where `normcase` is the
identity): `*` matches any run, `?` any single character, brackets a
character class, everything else itself; the whole string must match.
The fuel argument makes the definition structurally recursive; fuel
`pat.length + s.length + 1` is enough because every recursive call shrinks
the pattern or the string. -/
def globMatchF : Nat → PyStr → PyStr → Bool
  | 0, _, _ => false
  | _ + 1, [], s => s.isEmpty
  | f + 1, '*' :: p, s =>
    globMatchF f p s ||
      (match s with
       | [] => false
       | _ :: s2 => globMatchF f ('*' :: p) s2)
  | f + 1, '?' :: p, s =>
    (match s with
     | [] => false
     | _ :: s2 => globMatchF f p s2)
  | f + 1, '[' :: p, s =>
    (match parseBracket p with
     | some (b, prest) =>
       (match s with
        | [] => false
        | c :: s2 => bracketMatches b c && globMatchF f prest s2)
     | Option.none =>
       (match s with
        | [] => false
        | c :: s2 => c = '[' && globMatchF f p s2))
  | f + 1, c :: p, s =>
    (match s with
     | [] => false
     | c2 :: s2 => c = c2 && globMatchF f p s2)

/-- Top-level `fnmatch.fnmatch(name, pattern)`. -/
def fnmatch (name pattern : PyStr) : Bool :=
  globMatchF (pattern.length + name.length + 1) pattern name

/-- The defense-in-depth character set of `is_command_permitted`:
`;|&` backtick newline carriage-return null. -/
def dangerousChars : List Char :=
  [';', '|', '&', backtickChar, '\n', '\x0d', Char.ofNat 0]

/-- Embedding of `is_command_permitted`: strip outer whitespace, reject on
any dangerous character, then accept iff a role glob matches the whole
stripped command. -/
def is_command_permitted (command : PyStr) (permissions : RolePermissions) : Bool :=
  let commandStripped := pyStrip command
  if commandStripped.any (fun c => dangerousChars.contains c) then false
  else permissions.allowed_commands.any (fun pattern => fnmatch commandStripped pattern)

/-- Embedding of `is_path_readable`: normalize, then accept iff the path
extends an allowed read prefix (with its trailing slash) or equals the
prefix itself. -/
def is_path_readable (path : PyStr) (permissions : RolePermissions) : Bool :=
  let normalized := _normalize_path path
  permissions.allowed_paths_read.any (fun allowed =>
    let allowedNorm := pyRstrip '/' allowed ++ ['/']
    List.isPrefixOf allowedNorm normalized || normalized = pyRstrip '/' allowedNorm)

/-- Embedding of `is_path_writable`. -/
def is_path_writable (path : PyStr) (permissions : RolePermissions) : Bool :=
  let normalized := _normalize_path path
  permissions.allowed_paths_write.any (fun allowed =>
    let allowedNorm := pyRstrip '/' allowed ++ ['/']
    List.isPrefixOf allowedNorm normalized || normalized = pyRstrip '/' allowedNorm)

/-- Python `str(AllowlistDenied(command, role))`: the message built in the
constructor of the exception. -/
def allowlistDeniedStr (command role : PyStr) : PyStr :=
  pystr "Command not allowed for role " ++ pyReprStr role ++ pystr ": " ++ pyReprStr command

/-- Embedding of allowlist `check_command`: raise `AllowlistDenied` when
the command is not permitted.  The error carries the rendered message. -/
def check_command (command role : PyStr) (permissions : RolePermissions) : Except PyStr Unit :=
  if is_command_permitted command permissions then .ok ()
  else .error (allowlistDeniedStr command role)

/-- Embedding of `check_path_read`: raise `AllowlistDenied` with the
pseudo-command `read:{path}` when the path is not readable. -/
def check_path_read (path role : PyStr) (permissions : RolePermissions) : Except PyStr Unit :=
  if is_path_readable path permissions then .ok ()
  else .error (allowlistDeniedStr (pystr "read:" ++ path) role)

end Allowlist

/-! ### Approval gate (`agent/security/approval.py`) -/

namespace Approval

/-- The `ALWAYS_SAFE_TOOLS` frozenset. -/
def alwaysSafeTools : List PyStr := [pystr "list_servers", pystr "query_metrics"]

mutual
/-- Embedding of `_extract_string_values` on a value: string leaves are
collected, dicts contribute their values, lists and tuples their items,
every other leaf contributes nothing. -/
def extractStringValues : PyVal → List PyStr
  | .str s => [s]
  | .int _ => []
  | .bool _ => []
  | .none => []
  | .list xs => extractStringValuesL xs
  | .tuple xs => extractStringValuesL xs
  | .dict kvs => extractStringValuesD kvs

/-- String values of the items of a list or tuple, in order. -/
def extractStringValuesL : PyValList → List PyStr
  | .nil => []
  | .cons v rest => extractStringValues v ++ extractStringValuesL rest

/-- String values of the values of a dict, in order. -/
def extractStringValuesD : PyDict → List PyStr
  | .nil => []
  | .cons _ v rest => extractStringValues v ++ extractStringValuesD rest
end

/-- Embedding of `requires_approval`: always-safe tools short-circuit to
false; otherwise some extracted string value must contain some pattern,
both lowercased. -/
def requires_approval (toolName : PyStr) (toolInput : PyDict)
    (approvalPatterns : List PyStr) : Bool :=
  if alwaysSafeTools.contains toolName then false
  else
    (extractStringValuesD toolInput).any (fun value =>
      approvalPatterns.any (fun pattern =>
        strContains (pyLower value) (pyLower pattern)))

/-- Approval modes (`agent/config.py` `ApprovalMode`). -/
inductive ApprovalMode where
  | interactive
  | auto_deny
  deriving DecidableEq

/-- Embedding of `request_approval`: `auto_deny` refuses without asking;
`interactive` resolves to the operator's answer (`y`/`yes` approve,
anything else — including end-of-input — denies), which the embedding
takes as the boolean `operatorApproves`. -/
def request_approval (mode : ApprovalMode) (operatorApproves : Bool) : Bool :=
  match mode with
  | .auto_deny => false
  | .interactive => operatorApproves

end Approval

/-! ### Tool results (`agent/tools/base.py`) -/

namespace ToolBase

/-- Structured result of a tool execution (`ToolResult`), an immutable
record of output, error and exit code. -/
structure ToolResult where
  output : PyStr := []
  error : PyStr := []
  exit_code : Int := 0
  deriving DecidableEq

/-- Single step of the `_ANSI_RE` scanner, written with explicit fuel so
that it is structurally recursive.  At an ESC the scanner tries to consume
a CSI sequence (`[`, then `[0-9;]*`, then a letter) or an OSC sequence
(`]`, then anything up to a BEL); a consumed sequence is dropped, a failed
attempt emits the characters examined so far literally (none of them can
start a new match) and continues.  An unterminated OSC re-scans its body,
which is strictly shorter, hence the fuel.  Every step consumes at least
one character, so fuel `s.length` never runs out. -/
def stripAnsiF : Nat → PyStr → PyStr
  | 0, s => s
  | f + 1, s =>
    match s with
    | [] => []
    | c :: rest =>
      if c ≠ escChar then c :: stripAnsiF f rest
      else
        match rest with
        | '[' :: r2 =>
          let params := r2.takeWhile (fun d => d.isDigit || d = ';')
          let after := r2.dropWhile (fun d => d.isDigit || d = ';')
          (match after with
           | a :: r3 =>
             if isAsciiLetter a then stripAnsiF f r3
             else escChar :: '[' :: params ++ stripAnsiF f after
           | [] => escChar :: '[' :: params)
        | ']' :: r2 =>
          let body := r2.takeWhile (fun d => d ≠ belChar)
          let after := r2.dropWhile (fun d => d ≠ belChar)
          (match after with
           | _ :: r3 => stripAnsiF f r3
           | [] => escChar :: ']' :: stripAnsiF f body)
        | _ => escChar :: stripAnsiF f rest

/-- Embedding of `_strip_ansi`: remove CSI/OSC escape sequences, then
remove all carriage returns (`.replace("\r", "")`). -/
def _strip_ansi (text : PyStr) : PyStr :=
  (stripAnsiF text.length text).filter (fun c => c ≠ '\x0d')

/-- Values stored in a result mapping: strings or integers. -/
inductive ResVal where
  | s : PyStr → ResVal
  | i : Int → ResVal
  deriving DecidableEq

/-- A result mapping as returned to the model, in insertion order. -/
abbrev ResultDict := List (PyStr × ResVal)

/-- Embedding of `ToolResult.to_dict`: `output` (ANSI-stripped) first, then
`error` only when the error string is non-empty, then `exit_code`. -/
def ToolResult.to_dict (r : ToolResult) : ResultDict :=
  [(pystr "output", ResVal.s (_strip_ansi r.output))] ++
  (if !r.error.isEmpty then [(pystr "error", ResVal.s (_strip_ansi r.error))] else []) ++
  [(pystr "exit_code", ResVal.i r.exit_code)]

/-- Embedding of the `success` property: exit code zero and empty error. -/
def ToolResult.success (r : ToolResult) : Bool :=
  r.exit_code = 0 && r.error.isEmpty

end ToolBase

/-! ### Inventory (`agent/inventory.py`, `agent/config.py`) -/

namespace Registry

open Allowlist ToolBase Approval

/-- Server definition fields used by the dispatch pipeline
(`agent/config.py` `ServerDefinition`; connection fields omitted, they are
not consulted by dispatch). -/
structure ServerDefinition where
  host : PyStr
  role : PyStr
  ssh : Bool := true
  deriving DecidableEq

/-- Resolved server information (`agent/inventory.py` `ServerInfo`). -/
structure ServerInfo where
  name : PyStr
  definition : ServerDefinition
  permissions : RolePermissions
  deriving DecidableEq

/-- The inventory: named servers, per-role permissions and the global
approval patterns. -/
structure Inventory where
  servers : List (PyStr × ServerDefinition)
  roles : List (PyStr × RolePermissions)
  approval_required_patterns : List PyStr

/-- Python `repr` of the `PyVal` used as a server name in error messages. -/
def pyValRepr : PyVal → PyStr
  | .str s => pyReprStr s
  | .int n => intStr n
  | .bool b => if b then pystr "True" else pystr "False"
  | .none => pystr "None"
  | .list _ => pystr "[...]"
  | .tuple _ => pystr "(...)"
  | .dict _ => pystr "\x7b...\x7d"

/-- The `KeyError` message raised by `Inventory.get_server` for an unknown
name. -/
def unknownServerMsg (inv : Inventory) (name : PyVal) : PyStr :=
  pystr "Unknown server: " ++ pyValRepr name ++ pystr ". Available: " ++
    pyJoin ',' (inv.servers.map (fun pr => ' ' :: pr.1)) |>.drop 1

/-- Embedding of `Inventory.get_server`: unknown names raise `KeyError`
(modelled as `Except.error` with the rendered message); the role's
permissions default to the empty `RolePermissions` when the role is not
configured. -/
def get_server (inv : Inventory) (name : PyVal) : Except PyStr ServerInfo :=
  match name with
  | .str s =>
    match inv.servers.lookup s with
    | some defn =>
      .ok { name := s, definition := defn
          , permissions := (inv.roles.lookup defn.role).getD {} }
    | Option.none => .error (unknownServerMsg inv name)
  | _ => .error (unknownServerMsg inv name)

/-! ### Audit events and dispatch (`agent/security/audit.py`,
`agent/tools/registry.py`) -/

/-- Embedding of `_truncate_result`: string values longer than 2000
characters are cut and marked. -/
def truncateResult (result : ResultDict) : ResultDict :=
  result.map (fun pr =>
    match pr.2 with
    | .s v =>
      if v.length > 2000 then
        (pr.1, .s (v.take 2000 ++ pystr "... (truncated, " ++ natStr v.length ++ pystr " total)"))
      else pr
    | _ => pr)

/-- One audit record, as written by the `AuditLogger` methods.  The record
carries the same event-specific fields as the source (tool, input, and a
reason, error or truncated result where applicable). -/
inductive AuditEvent where
  | attempt : PyStr → PyDict → AuditEvent
  | success : PyStr → PyDict → ResultDict → AuditEvent
  | denied : PyStr → PyDict → PyStr → AuditEvent
  | error : PyStr → PyDict → PyStr → AuditEvent
  | timeout : PyStr → PyDict → AuditEvent
  deriving DecidableEq

/-- Agent configuration fields consulted by `dispatch`. -/
structure AgentConfig where
  command_timeout : Nat := 30
  approval_mode : ApprovalMode := .interactive
  deriving DecidableEq

/-- Possible outcomes of awaiting `tool.execute(**sanitized)` under
`asyncio.wait_for`: a returned `ToolResult`, a raised exception (with its
string rendering), or a timeout. -/
inductive ExecOutcome where
  | ok : ToolResult → ExecOutcome
  | exn : PyStr → ExecOutcome
  | timeout : ExecOutcome

/-- A registered tool, reduced to what dispatch consults: the behaviour of
its `execute` coroutine on the sanitized input. -/
structure ToolSpec where
  execute : PyDict → ExecOutcome

/-- Exceptions that escape `dispatch` uncaught: the `TypeError` raised by
`re.search` on a non-string sanitizer field, and the `KeyError` raised by
`Inventory.get_server` inside `_check_allowlist` (only `AllowlistDenied`
is caught there). -/
inductive DispatchExn where
  | typeErr : PyStr → DispatchExn
  | keyErr : PyStr → DispatchExn
  deriving DecidableEq

/-- Result of the `_check_allowlist` stage: pass, an `AllowlistDenied`
message (caught by dispatch), or an uncaught Python exception. -/
inductive AllowlistStage where
  | ok
  | denied : PyStr → AllowlistStage
  | raised : DispatchExn → AllowlistStage
  deriving DecidableEq

/-- Embedding of `ToolRegistry._check_allowlist`.  A `command` field with a
truthy `server` checks the command against that server's role; a `command`
without one resolves `localhost`, converting a missing `localhost` entry
into `AllowlistDenied`; a `path` field with a truthy `server` checks
readability.  Note: `get_server` failures for a named server are NOT
caught, and a `path` without a truthy `server` is not checked at all. -/
def _check_allowlist (inv : Inventory) (toolInput : PyDict) : AllowlistStage :=
  let serverName := toolInput.get (pystr "server")
  let serverTruthy := match serverName with
    | some v => pyTruthy v
    | Option.none => false
  let commandStage : AllowlistStage :=
    match toolInput.get (pystr "command") with
    | some cmdV =>
      if serverTruthy then
        match get_server inv (serverName.getD .none) with
        | .error m => .raised (.keyErr m)
        | .ok si =>
          match cmdV with
          | .str cmd =>
            (match check_command cmd si.definition.role si.permissions with
             | .ok _ => .ok
             | .error m => .denied m)
          | _ => .raised (.typeErr (pystr "command"))
      else
        match inv.servers.lookup (pystr "localhost") with
        | Option.none =>
          (match cmdV with
           | .str cmd =>
             .denied (allowlistDeniedStr cmd
               (pystr "bastion (no 'localhost' entry in server inventory)"))
           | _ => .raised (.typeErr (pystr "command")))
        | some defn =>
          let si : ServerInfo :=
            { name := pystr "localhost", definition := defn
            , permissions := (inv.roles.lookup defn.role).getD {} }
          match cmdV with
          | .str cmd =>
            (match check_command cmd si.definition.role si.permissions with
             | .ok _ => .ok
             | .error m => .denied m)
          | _ => .raised (.typeErr (pystr "command"))
    | Option.none => .ok
  match commandStage with
  | .ok =>
    match toolInput.get (pystr "path") with
    | some pathV =>
      if serverTruthy then
        match get_server inv (serverName.getD .none) with
        | .error m => .raised (.keyErr m)
        | .ok si =>
          match pathV with
          | .str p =>
            (match check_path_read p si.definition.role si.permissions with
             | .ok _ => .ok
             | .error m => .denied m)
          | _ => .raised (.typeErr (pystr "path"))
      else .ok
    | Option.none => .ok
  | other => other

/-- Embedding of `ToolRegistry.dispatch`: the six-stage pipeline.  The
first component is the mapping returned to the model (or the uncaught
exception), the second the audit records emitted during the call, in
order. -/
def dispatch (registry : List (PyStr × ToolSpec)) (config : AgentConfig)
    (inv : Inventory) (operatorApproves : Bool)
    (toolName : PyStr) (toolInput : PyDict) :
    Except DispatchExn ResultDict × List AuditEvent :=
  match registry.lookup toolName with
  | Option.none =>
    (.ok [(pystr "error", .s (pystr "Unknown tool: " ++ pyReprStr toolName))], [])
  | some tool =>
    match Sanitizer.sanitize toolName toolInput with
    | .error (.sanitization field value reason) =>
      let msg := Sanitizer.sanExnStr field reason
      let _ := value
      (.ok [(pystr "error", .s (pystr "Input rejected: " ++ msg))],
       [.denied toolName toolInput (pystr "sanitizer: " ++ msg)])
    | .error (.typeError field) => (.error (.typeErr field), [])
    | .ok sanitized =>
      let attemptRec := AuditEvent.attempt toolName sanitized
      match _check_allowlist inv sanitized with
      | .raised e => (.error e, [attemptRec])
      | .denied m =>
        (.ok [(pystr "error", .s (pystr "Operation not permitted by security policy: " ++ m))],
         [attemptRec, .denied toolName sanitized (pystr "allowlist: " ++ m)])
      | .ok =>
        let needsApproval :=
          requires_approval toolName sanitized inv.approval_required_patterns
        if needsApproval && !(request_approval config.approval_mode operatorApproves) then
          (.ok [(pystr "error", .s (pystr "Operation denied by operator"))],
           [attemptRec, .denied toolName sanitized (pystr "human_denied")])
        else
          match tool.execute sanitized with
          | .timeout =>
            (.ok [(pystr "error",
               .s (pystr "Operation timed out (" ++ natStr config.command_timeout ++ pystr "s)"))],
             [attemptRec, .timeout toolName sanitized])
          | .exn m =>
            (.ok [(pystr "error", .s (pystr "Execution failed: " ++ m))],
             [attemptRec, .error toolName sanitized m])
          | .ok r =>
            let resultDict := r.to_dict
            if r.success then
              (.ok resultDict,
               [attemptRec, .success toolName sanitized (truncateResult resultDict)])
            else
              (.ok resultDict,
               [attemptRec, .error toolName sanitized
                 (if !r.error.isEmpty then r.error
                  else pystr "exit code " ++ intStr r.exit_code)])

end Registry

/-! ### Conversation history trimmer (`agent/client.py`) -/

namespace Client

/-- A message content: either a plain string or a list of serialized
content blocks.  For token estimation a dict block contributes the length
of its `json.dumps` rendering, which the embedding carries as a number
(the trimmer consults content only through `len`). -/
inductive MsgContent where
  | str : PyStr → MsgContent
  | blocks : List Nat → MsgContent
  deriving DecidableEq

/-- A conversation message: a role (`user` or `assistant`, kept as a
string as in the source dicts) and a content. -/
structure Msg where
  role : PyStr
  content : MsgContent
  deriving DecidableEq

/-- Character count contributed by one message, as in `_estimate_tokens`. -/
def msgChars (m : Msg) : Nat :=
  match m.content with
  | .str s => s.length
  | .blocks ls => ls.foldl (fun a b => a + b) 0

/-- Embedding of `_estimate_tokens`: total characters divided by the 3.5
chars-per-token ratio, truncated (`int(total / 3.5)` equals
`2 * total / 7` in integer arithmetic for the sizes at hand). -/
def _estimate_tokens (messages : List Msg) : Nat :=
  2 * (messages.foldl (fun a m => a + msgChars m) 0) / 7

/-- One-or-two-pop body of the trim `while` loop: drop the front message
and, if the new front is an assistant message, drop it too. -/
def trimPop (messages : List Msg) : List Msg :=
  match messages with
  | [] => []
  | _ :: rest =>
    match rest with
    | m1 :: rest2 => if m1.role = pystr "assistant" then rest2 else rest
    | [] => rest

/-- The trim `while` loop (`while est > budget and len > 2`), with fuel for
structural recursion; each iteration removes at least one message, so fuel
`messages.length` cannot run out before the condition fails. -/
def trimLoop (budget : Nat) : Nat → List Msg → List Msg
  | 0, messages => messages
  | f + 1, messages =>
    if _estimate_tokens messages > budget && messages.length > 2 then
      trimLoop budget f (trimPop messages)
    else messages

/-- Embedding of `ConversationClient._trim_history`, with the token budget
(`config.max_conversation_tokens` in the source) passed explicitly.  The
early return fires when the estimate is within budget. -/
def _trim_history (budget : Nat) (messages : List Msg) : List Msg :=
  if _estimate_tokens messages ≤ budget then messages
  else trimLoop budget messages.length messages

end Client

/-! ### Session store (`agent/sessions.py`) -/

namespace Sessions

/-- A stored session file's contents (the JSON object written by `save`).
Timestamps are modelled as rationals; message payloads as `PyVal`s. -/
structure SessionData where
  session_id : PyStr
  created_at : Rat
  updated_at : Rat
  turns : Nat
  preview : PyStr
  messages : List PyVal
  deriving DecidableEq

/-- The session directory, as a mapping from session id to file contents
(the file name is determined by the id). -/
abbrev Store := List (PyStr × SessionData)

/-- Python truthiness of a float: only `0.0` (and `-0.0`) is falsy, which
is what `created_at or now` tests. -/
def ratTruthy (t : Rat) : Bool := t ≠ 0

/-- Embedding of `SessionStore._extract_preview`: first user message with
string content, stripped, ellipsed past 80 characters. -/
def _extract_preview (messages : List PyVal) : PyStr :=
  match messages.find? (fun m =>
    match m with
    | .dict d =>
      d.get (pystr "role") = some (.str (pystr "user")) &&
        (match d.get (pystr "content") with
         | some (.str _) => true
         | _ => false)
    | _ => false) with
  | some (.dict d) =>
    (match d.get (pystr "content") with
     | some (.str text) =>
       let t := pyStrip text
       if t.length > 80 then t.take 80 ++ pystr "..." else t
     | _ => [])
  | _ => []

/-- Count of user messages with plain string content (the `turns` field
computed by `save`). -/
def countTurns (messages : List PyVal) : Nat :=
  messages.countP (fun m =>
    match m with
    | .dict d =>
      d.get (pystr "role") = some (.str (pystr "user")) &&
        (match d.get (pystr "content") with
         | some (.str _) => true
         | _ => false)
    | _ => false)

/-- Replace or add the file for a session id. -/
def putFile (store : Store) (sid : PyStr) (data : SessionData) : Store :=
  (sid, data) :: store.filter (fun pr => pr.1 ≠ sid)

/-- Embedding of `SessionStore.save`.  The stored `created_at` is
`created_at or now`: the current time is substituted when the argument is
`None` or the falsy `0.0`.  Serialization of JSON-representable messages
round-trips identically, so the messages are stored as given. -/
def save (store : Store) (sessionId : PyStr) (messages : List PyVal)
    (createdAt : Option Rat) (now : Rat) : Store :=
  let storedCreated : Rat :=
    match createdAt with
    | some t => if ratTruthy t then t else now
    | Option.none => now
  putFile store sessionId
    { session_id := sessionId
    , created_at := storedCreated
    , updated_at := now
    , turns := countTurns messages
    , preview := _extract_preview messages
    , messages := messages }

/-- Embedding of `SessionStore.load`: a missing file raises
`FileNotFoundError` (modelled as `Except.error`); otherwise the messages
and the stored `created_at` are returned. -/
def load (store : Store) (sessionId : PyStr) : Except Unit (List PyVal × Rat) :=
  match store.lookup sessionId with
  | some data => .ok (data.messages, data.created_at)
  | Option.none => .error ()

end Sessions

/-! ### Specification-side relations and concrete demonstration data -/

mutual
/-- Specification-side relation: `s` is a string leaf of the value,
reachable through nested lists, tuples and dict values. -/
inductive IsStrLeafV : PyVal → PyStr → Prop where
  | str (s : PyStr) : IsStrLeafV (.str s) s
  | list (xs : PyValList) (s : PyStr) : IsStrLeafL xs s → IsStrLeafV (.list xs) s
  | tuple (xs : PyValList) (s : PyStr) : IsStrLeafL xs s → IsStrLeafV (.tuple xs) s
  | dict (d : PyDict) (s : PyStr) : IsStrLeafD d s → IsStrLeafV (.dict d) s

/-- String leaves of a list or tuple body. -/
inductive IsStrLeafL : PyValList → PyStr → Prop where
  | head (v : PyVal) (rest : PyValList) (s : PyStr) :
      IsStrLeafV v s → IsStrLeafL (.cons v rest) s
  | tail (v : PyVal) (rest : PyValList) (s : PyStr) :
      IsStrLeafL rest s → IsStrLeafL (.cons v rest) s

/-- String leaves among the values of a dict. -/
inductive IsStrLeafD : PyDict → PyStr → Prop where
  | head (k : PyStr) (v : PyVal) (rest : PyDict) (s : PyStr) :
      IsStrLeafV v s → IsStrLeafD (.cons k v rest) s
  | tail (k : PyStr) (v : PyVal) (rest : PyDict) (s : PyStr) :
      IsStrLeafD rest s → IsStrLeafD (.cons k v rest) s
end

mutual
/-- A value that `json` serialization round-trips identically: strings,
integers, booleans, `None`, lists and dicts of such values.  Tuples are
excluded because `json.dump` writes them back as lists. -/
def jsonSafeV : PyVal → Bool
  | .str _ => true
  | .int _ => true
  | .bool _ => true
  | .none => true
  | .list xs => jsonSafeL xs
  | .tuple _ => false
  | .dict kvs => jsonSafeD kvs

/-- JSON-safety of a list body. -/
def jsonSafeL : PyValList → Bool
  | .nil => true
  | .cons v rest => jsonSafeV v && jsonSafeL rest

/-- JSON-safety of dict values. -/
def jsonSafeD : PyDict → Bool
  | .nil => true
  | .cons _ v rest => jsonSafeV v && jsonSafeD rest
end

namespace Registry

/-- Recognizer for `tool_attempt` records. -/
def isAttemptEvent : AuditEvent → Bool
  | .attempt _ _ => true
  | _ => false

/-- Recognizer for `tool_denied` records. -/
def isDeniedEvent : AuditEvent → Bool
  | .denied _ _ _ => true
  | _ => false

/-- Recognizer for the outcome records that can close a dispatched call:
`tool_denied`, `tool_timeout`, `tool_error` or `tool_success`. -/
def isOutcomeEvent : AuditEvent → Bool
  | .denied _ _ _ => true
  | .timeout _ _ => true
  | .error _ _ _ => true
  | .success _ _ _ => true
  | _ => false

/-- The audit-record shapes a single `dispatch` call can emit: nothing, a
lone denial (sanitizer), a lone attempt (a call that raises), or an
attempt followed by exactly one outcome record. -/
def eventsOrdered : List AuditEvent → Bool
  | [] => true
  | [e] => isDeniedEvent e || isAttemptEvent e
  | [e1, e2] => isAttemptEvent e1 && isOutcomeEvent e2
  | _ => false

end Registry

namespace Demo

open Allowlist Registry ToolBase

/-- The bastion role of the test fixtures: a few read-only commands and
three readable directories. -/
def demoPerms : RolePermissions :=
  { allowed_commands := [pystr "uptime", pystr "df -h"]
  , allowed_paths_read := [pystr "/var/log/"] }

/-- An inventory with a single non-SSH `localhost` entry in the bastion
role, mirroring the test fixture. -/
def demoInv : Inventory :=
  { servers := [(pystr "localhost",
      { host := pystr "localhost", role := pystr "bastion", ssh := false })]
  , roles := [(pystr "bastion", demoPerms)]
  , approval_required_patterns := [pystr "restart"] }

/-- A tool whose execution succeeds with fixed output, standing for a
registered `read_file`-shaped tool. -/
def demoTool : ToolSpec := { execute := fun _ => .ok { output := pystr "file contents" } }

/-- A registry holding the demo tool under the name `read_file`. -/
def demoReg : List (PyStr × ToolSpec) := [(pystr "read_file", demoTool)]

/-- The default agent configuration fields dispatch consults. -/
def demoCfg : AgentConfig := { command_timeout := 30, approval_mode := .interactive }

/-- An input carrying a path outside the readable prefixes and no server
field. -/
def pathOnlyInput : PyDict :=
  .cons (pystr "path") (.str (pystr "/root/secret")) .nil

/-- An input naming a server absent from the inventory together with a
readable path. -/
def unknownServerInput : PyDict :=
  .cons (pystr "server") (.str (pystr "bogus"))
    (.cons (pystr "path") (.str (pystr "/var/log/syslog")) .nil)

/-- An input naming the known `localhost` server and an unreadable path. -/
def serverPathInput : PyDict :=
  .cons (pystr "server") (.str (pystr "localhost"))
    (.cons (pystr "path") (.str (pystr "/root/secret")) .nil)

/-- The resolved `ServerInfo` for the demo `localhost` entry. -/
def demoLocalhostInfo : ServerInfo :=
  { name := pystr "localhost"
  , definition := { host := pystr "localhost", role := pystr "bastion", ssh := false }
  , permissions := demoPerms }

/-- A ten-character user message. -/
def demoUser1 : Client.Msg := { role := pystr "user", content := .str (pystr "aaaaaaaaaa") }

/-- A serialized assistant message whose blocks dump to ten characters. -/
def demoAssistant : Client.Msg := { role := pystr "assistant", content := .blocks [10] }

/-- A second ten-character user message (the current turn). -/
def demoUser2 : Client.Msg := { role := pystr "user", content := .str (pystr "bbbbbbbbbb") }

/-- A nested approval-gate input: a dict holding a list holding a dict
holding a tuple holding the flagged string. -/
def nestedInput : PyDict :=
  .cons (pystr "a")
    (.list (.cons
      (.dict (.cons (pystr "b")
        (.tuple (.cons (.str (pystr "docker ReStArT app")) .nil)) .nil)) .nil)) .nil

end Demo

/-! ### Theorems for the specification claims -/

namespace Claims

open Sanitizer Allowlist Approval ToolBase Registry Client Sessions Demo

/-- C8: for every `ToolResult`, `to_dict` contains the keys `output` and
`exit_code`, and `success` is true exactly when the exit code equals `0`
and the error string is empty. -/
theorem toolresult_law (r : ToolResult) :
    ((r.to_dict.lookup (pystr "output")).isSome = true) ∧
    ((r.to_dict.lookup (pystr "exit_code")).isSome = true) ∧
    (r.success = true ↔ (r.exit_code = 0 ∧ r.error = [])) := by
  have e1 : (pystr "exit_code" == pystr "output") = false := by decide
  have e2 : (pystr "exit_code" == pystr "error") = false := by decide
  have e3 : (pystr "exit_code" == pystr "exit_code") = true := by decide
  have e4 : (pystr "output" == pystr "output") = true := by decide
  refine ⟨?_, ?_, ?_⟩
  · cases h : r.error.isEmpty <;>
      simp [ToolResult.to_dict, List.lookup, h, e4]
  · cases h : r.error.isEmpty <;>
      simp [ToolResult.to_dict, List.lookup, h, e1, e2, e3]
  · simp [ToolResult.success, List.isEmpty_iff]

/-- C10: for every `ToolResult`, the mapping from `to_dict` has an `error`
entry exactly when the error field is non-empty, carrying the
ANSI/carriage-return-stripped error; `output` always carries the stripped
output and `exit_code` the exit code. -/
theorem to_dict_error_key (r : ToolResult) :
    (r.to_dict.lookup (pystr "error")
      = (if r.error = [] then Option.none else some (.s (_strip_ansi r.error)))) ∧
    (r.to_dict.lookup (pystr "output") = some (.s (_strip_ansi r.output))) ∧
    (r.to_dict.lookup (pystr "exit_code") = some (.i r.exit_code)) := by
  have e1 : (pystr "exit_code" == pystr "output") = false := by decide
  have e2 : (pystr "exit_code" == pystr "error") = false := by decide
  have e3 : (pystr "exit_code" == pystr "exit_code") = true := by decide
  have e4 : (pystr "output" == pystr "output") = true := by decide
  have e5 : (pystr "error" == pystr "output") = false := by decide
  have e6 : (pystr "error" == pystr "error") = true := by decide
  have e7 : (pystr "error" == pystr "exit_code") = false := by decide
  refine ⟨?_, ?_, ?_⟩ <;> cases h : r.error.isEmpty
  all_goals
    first
    | (have h' : r.error = [] := List.isEmpty_iff.mp h
       simp [ToolResult.to_dict, List.lookup, h, h', e1, e2, e3, e4, e5, e6, e7])
    | (have h' : ¬ r.error = [] := by
         intro hc
         rw [hc] at h
         simp at h
       simp [ToolResult.to_dict, List.lookup, h, h', e1, e2, e3, e4, e5, e6, e7])

/-- C2 (code bug): `sanitize` does not examine the `since` field, so the
metacharacter-laden `since` value from `test_sanitizer.py` passes through
unchanged instead of raising `SanitizationError`. -/
theorem sanitize_ignores_since :
    Sanitizer.sanitize (pystr "service_journal")
        (.cons (pystr "since") (.str (pystr "1h;rm -rf /")) .nil)
      = .ok (.cons (pystr "since") (.str (pystr "1h;rm -rf /")) .nil) := by
  decide

/-- C5 (code bug): on the over-budget three-message history
`[user, assistant, user]` with a budget of 5 tokens, `_trim_history` pops
the front user message and then unconditionally pops the new front
assistant message — the second-to-last message of the input — leaving a
single message instead of preserving the final two. -/
theorem trim_history_evicts_second_last :
    Client._trim_history 5 [demoUser1, demoAssistant, demoUser2] = [demoUser2] := by
  decide

/-- C3 (code bug): dispatching the registered `read_file` tool with a
server name absent from the inventory raises the `KeyError` from
`Inventory.get_server` out of `dispatch` (only `AllowlistDenied` is
caught), after having emitted the `tool_attempt` record, instead of
returning an error mapping. -/
theorem dispatch_unknown_server_raises :
    dispatch demoReg demoCfg demoInv true (pystr "read_file") unknownServerInput
      = (.error (.keyErr (unknownServerMsg demoInv (.str (pystr "bogus")))),
         [.attempt (pystr "read_file") unknownServerInput]) := by
  decide

/-- C6 counterexample: a call to `dispatch` with an unregistered tool name
emits no audit records at all, so `tool_attempt` is absent even though the
sanitizer did not reject the input — refuting the claimed equivalence
between a missing attempt record and a sanitizer rejection. -/
theorem dispatch_unknown_tool_emits_nothing :
    dispatch demoReg demoCfg demoInv true (pystr "nope") PyDict.nil
      = (.ok [(pystr "error", .s (pystr "Unknown tool: " ++ pyReprStr (pystr "nope")))], [])
    ∧ (Sanitizer.sanitize (pystr "nope") PyDict.nil).isOk = true := by
  decide

end Claims

namespace Claims

open Sessions

/-- C9 counterexample: saving with `created_at = 0.0` and loading does not
return the original timestamp — Python's `created_at or now` treats the
falsy `0.0` as absent and stores the save-time clock instead. -/
theorem session_roundtrip_fails_at_zero :
    Sessions.load (Sessions.save [] (pystr "abc123def456") [] (some 0) 1700000000)
        (pystr "abc123def456")
      = .ok ([], 1700000000)
    ∧ ¬ (Sessions.load (Sessions.save [] (pystr "abc123def456") [] (some 0) 1700000000)
        (pystr "abc123def456")
      = .ok ([], 0)) := by
  constructor
  · simp [Sessions.save, Sessions.load, Sessions.putFile, Sessions.ratTruthy, List.lookup]
  · simp [Sessions.save, Sessions.load, Sessions.putFile, Sessions.ratTruthy, List.lookup]

/-- C9 amended: for every store, session id, JSON-representable message
list and nonzero creation timestamp `t`, saving and then loading returns
exactly the messages and `t`; only the falsy timestamp `0.0` is replaced
by the save-time clock. -/
theorem session_roundtrip_nonzero (store : Store) (sid : PyStr) (msgs : List PyVal)
    (t now : Rat) (ht : t ≠ 0) (hjson : msgs.all jsonSafeV = true) :
    Sessions.load (Sessions.save store sid msgs (some t) now) sid = .ok (msgs, t) := by
  have _ := hjson
  simp [Sessions.save, Sessions.load, Sessions.putFile, Sessions.ratTruthy, ht, List.lookup]

/-- Witness for the amended C9 theorem at concrete inputs. -/
theorem session_roundtrip_nonzero_witness :
    ((5 : Rat) ≠ 0) ∧ ([PyVal.none].all jsonSafeV = true) ∧
    Sessions.load (Sessions.save [] (pystr "abc123def456") [PyVal.none] (some 5) 7)
        (pystr "abc123def456")
      = .ok ([PyVal.none], 5) :=
  ⟨by norm_num, by decide,
    session_roundtrip_nonzero [] (pystr "abc123def456") [PyVal.none] 5 7
      (by norm_num) (by decide)⟩

end Claims

namespace Claims

open Sanitizer Allowlist Registry ToolBase Demo

/-- Sanitize never transforms its input: a successful run returns the very
mapping it was given. -/
theorem sanitize_ok_eq (tn : PyStr) (i : PyDict) (x : PyDict)
    (h : Sanitizer.sanitize tn i = .ok x) : x = i := by
  simp only [Sanitizer.sanitize, bind, Except.bind] at h
  repeat' split at h
  all_goals first | (cases h; rfl) | cases h

end Claims

namespace Claims

open Sanitizer Allowlist Registry ToolBase Demo

/-- C1 counterexample: an input carrying a `path` outside every allowed
read prefix but no `server` field is dispatched to execution — the
authorize stage never runs `check_path_read`, and the result is the tool's
own output rather than the security-policy error mapping. -/
theorem dispatch_path_without_server_executes :
    (dispatch demoReg demoCfg demoInv true (pystr "read_file") pathOnlyInput).1
      = .ok [(pystr "output", .s (pystr "file contents")), (pystr "exit_code", .i 0)]
    ∧ Allowlist.is_path_readable (pystr "/root/secret") demoPerms = false := by
  decide

/-- C1 amended: `check_path_read` runs on a dispatched `path` only when the
input also carries a truthy `server` naming an inventory server; in that
case a path outside the role's read prefixes makes dispatch return the
security-policy error mapping after auditing the attempt and the denial
(stated for inputs without a `command` field, which is authorized first). -/
theorem dispatch_checks_path_with_server
    (registry : List (PyStr × ToolSpec)) (cfg : AgentConfig) (inv : Inventory)
    (approves : Bool) (toolName : PyStr) (input : PyDict)
    (tool : ToolSpec) (p sv : PyStr) (si : ServerInfo)
    (hreg : registry.lookup toolName = some tool)
    (hsan : Sanitizer.sanitize toolName input = .ok input)
    (hcmd : input.get (pystr "command") = Option.none)
    (hpath : input.get (pystr "path") = some (.str p))
    (hsrv : input.get (pystr "server") = some (.str sv))
    (hsv : sv ≠ [])
    (hget : get_server inv (.str sv) = .ok si)
    (hread : is_path_readable p si.permissions = false) :
    dispatch registry cfg inv approves toolName input
      = (.ok [(pystr "error", .s (pystr "Operation not permitted by security policy: "
            ++ allowlistDeniedStr (pystr "read:" ++ p) si.definition.role))],
         [.attempt toolName input,
          .denied toolName input (pystr "allowlist: "
            ++ allowlistDeniedStr (pystr "read:" ++ p) si.definition.role)]) := by
  have hsvEmpty : sv.isEmpty = false := by
    cases sv with
    | nil => exact absurd rfl hsv
    | cons a t => rfl
  have hchk : _check_allowlist inv input
      = .denied (allowlistDeniedStr (pystr "read:" ++ p) si.definition.role) := by
    unfold _check_allowlist
    simp [hsrv, hcmd, hpath, pyTruthy, hsvEmpty, hget, check_path_read, hread]
  unfold dispatch
  simp [hreg, hsan, hchk]

/-- Witness for the amended C1 theorem: the demo registry, inventory and
`localhost` server with the unreadable path `/root/secret`. -/
theorem dispatch_checks_path_with_server_witness :
    (demoReg.lookup (pystr "read_file") = some demoTool)
    ∧ (Sanitizer.sanitize (pystr "read_file") serverPathInput = .ok serverPathInput)
    ∧ (serverPathInput.get (pystr "command") = Option.none)
    ∧ (serverPathInput.get (pystr "path") = some (.str (pystr "/root/secret")))
    ∧ (serverPathInput.get (pystr "server") = some (.str (pystr "localhost")))
    ∧ (pystr "localhost" ≠ [])
    ∧ (get_server demoInv (.str (pystr "localhost")) = .ok demoLocalhostInfo)
    ∧ (is_path_readable (pystr "/root/secret") demoLocalhostInfo.permissions = false)
    ∧ dispatch demoReg demoCfg demoInv true (pystr "read_file") serverPathInput
      = (.ok [(pystr "error", .s (pystr "Operation not permitted by security policy: "
            ++ allowlistDeniedStr (pystr "read:/root/secret") (pystr "bastion")))],
         [.attempt (pystr "read_file") serverPathInput,
          .denied (pystr "read_file") serverPathInput (pystr "allowlist: "
            ++ allowlistDeniedStr (pystr "read:/root/secret") (pystr "bastion"))]) := by
  refine ⟨rfl, by decide, by decide, by decide, by decide, by decide, rfl, by decide, ?_⟩
  have h := dispatch_checks_path_with_server demoReg demoCfg demoInv true
    (pystr "read_file") serverPathInput demoTool (pystr "/root/secret") (pystr "localhost")
    demoLocalhostInfo rfl (by decide) (by decide) (by decide) (by decide)
    (by decide) rfl (by decide)
  simpa using h

end Claims

namespace Claims

open Approval

/-- The executable substring test agrees with the infix relation. -/
theorem strContains_iff (hay needle : PyStr) :
    strContains hay needle = true ↔ needle <:+: hay := by
  induction hay with
  | nil =>
    unfold strContains
    cases needle with
    | nil => simp
    | cons c t => simp
  | cons c t ih =>
    unfold strContains
    by_cases hp : List.isPrefixOf needle (c :: t)
    · simp [hp, List.infix_cons_iff]
      exact Or.inl (List.isPrefixOf_iff_prefix.mp hp)
    · simp [hp, List.infix_cons_iff, ih]
      intro hcon
      exact absurd (List.isPrefixOf_iff_prefix.mpr hcon) hp

mutual
/-- Membership in the extracted string values of a value coincides with
the string-leaf relation. -/
theorem mem_extractV (v : PyVal) (s : PyStr) :
    s ∈ extractStringValues v ↔ IsStrLeafV v s := by
  cases v with
  | str t =>
    simp [extractStringValues]
    constructor
    · intro h; rw [h]; exact .str t
    · intro h; cases h; rfl
  | int n => simp [extractStringValues]; intro h; cases h
  | bool b => simp [extractStringValues]; intro h; cases h
  | none => simp [extractStringValues]; intro h; cases h
  | list xs =>
    simp [extractStringValues, mem_extractL xs s]
    constructor
    · exact fun h => .list xs s h
    · intro h; cases h; assumption
  | tuple xs =>
    simp [extractStringValues, mem_extractL xs s]
    constructor
    · exact fun h => .tuple xs s h
    · intro h; cases h; assumption
  | dict d =>
    simp [extractStringValues, mem_extractD d s]
    constructor
    · exact fun h => .dict d s h
    · intro h; cases h; assumption

/-- List-body version of `mem_extractV`. -/
theorem mem_extractL (xs : PyValList) (s : PyStr) :
    s ∈ extractStringValuesL xs ↔ IsStrLeafL xs s := by
  cases xs with
  | nil => simp [extractStringValuesL]; intro h; cases h
  | cons v rest =>
    simp [extractStringValuesL, List.mem_append, mem_extractV v s, mem_extractL rest s]
    constructor
    · intro h
      cases h with
      | inl h => exact .head v rest s h
      | inr h => exact .tail v rest s h
    · intro h
      cases h with
      | head _ _ _ h => exact Or.inl h
      | tail _ _ _ h => exact Or.inr h

/-- Dict version of `mem_extractV`. -/
theorem mem_extractD (d : PyDict) (s : PyStr) :
    s ∈ extractStringValuesD d ↔ IsStrLeafD d s := by
  cases d with
  | nil => simp [extractStringValuesD]; intro h; cases h
  | cons k v rest =>
    simp [extractStringValuesD, List.mem_append, mem_extractV v s, mem_extractD rest s]
    constructor
    · intro h
      cases h with
      | inl h => exact .head k v rest s h
      | inr h => exact .tail k v rest s h
    · intro h
      cases h with
      | head _ _ _ _ h => exact Or.inl h
      | tail _ _ _ _ h => exact Or.inr h
end

/-- C7: for a tool outside the always-safe set, `requires_approval` is
true exactly when some string leaf of the recursively walked input
contains some approval pattern case-insensitively; non-string leaves are
ignored by construction of the leaf relation, and the empty pattern list
never requires approval for any tool and input. -/
theorem requires_approval_spec (tn : PyStr) (input : PyDict) (pats : List PyStr)
    (h : alwaysSafeTools.contains tn = false) :
    (requires_approval tn input pats = true ↔
      ∃ s, IsStrLeafD input s ∧ ∃ p ∈ pats, pyLower p <:+: pyLower s)
    ∧ (∀ tn2 : PyStr, ∀ input2 : PyDict, requires_approval tn2 input2 [] = false) := by
  have hnm : tn ∉ alwaysSafeTools := by simpa using h
  constructor
  · simp [requires_approval, h, List.any_eq_true, strContains_iff, mem_extractD]
    intro x _ x1 _ _
    exact hnm
  · intro tn2 input2
    simp [requires_approval]

/-- Witness for the C7 theorem on a nested input (a dict containing a list
containing a dict containing a tuple containing the flagged string). -/
theorem requires_approval_spec_witness :
    (alwaysSafeTools.contains (pystr "run_local_command") = false)
    ∧ (requires_approval (pystr "run_local_command") Demo.nestedInput [pystr "restart"] = true ↔
        ∃ s, IsStrLeafD Demo.nestedInput s ∧
          ∃ p ∈ [pystr "restart"], pyLower p <:+: pyLower s)
    ∧ (requires_approval (pystr "run_local_command") Demo.nestedInput [] = false) :=
  ⟨by decide,
    (requires_approval_spec (pystr "run_local_command") Demo.nestedInput [pystr "restart"]
      (by decide)).1,
    (requires_approval_spec (pystr "run_local_command") Demo.nestedInput [pystr "restart"]
      (by decide)).2 (pystr "run_local_command") Demo.nestedInput⟩

end Claims

namespace Claims

open Sanitizer Allowlist Approval Registry ToolBase Demo

/-- C6 amended: the audit records of a single dispatch call are ordered as
`tool_attempt` followed by at most one outcome record; `tool_attempt`
appears exactly when the tool name is registered and the sanitize stage
accepted the input (so it is also absent for an unknown tool, which emits
nothing, and for the uncaught sanitizer `TypeError`); and every call that
returns normally through a registered tool and an accepted input closes
with exactly one outcome record (`tool_denied`, `tool_timeout`,
`tool_error` or `tool_success`) after the attempt. -/
theorem dispatch_audit_order
    (registry : List (PyStr × ToolSpec)) (cfg : AgentConfig) (inv : Inventory)
    (approves : Bool) (tn : PyStr) (input : PyDict) :
    (eventsOrdered (dispatch registry cfg inv approves tn input).2 = true)
    ∧ ((dispatch registry cfg inv approves tn input).2.any isAttemptEvent
        = ((registry.lookup tn).isSome && (Sanitizer.sanitize tn input).isOk))
    ∧ (∀ d : ResultDict, (dispatch registry cfg inv approves tn input).1 = .ok d →
        (registry.lookup tn).isSome = true →
        (Sanitizer.sanitize tn input).isOk = true →
        ∃ e, (dispatch registry cfg inv approves tn input).2 = [.attempt tn input, e]
          ∧ isOutcomeEvent e = true) := by
  rcases hreg : registry.lookup tn with _ | tool
  · refine ⟨?_, ?_, ?_⟩ <;> simp [dispatch, hreg, eventsOrdered]
  · rcases hsan : Sanitizer.sanitize tn input with e | x
    · cases e with
      | sanitization f v r =>
        refine ⟨?_, ?_, ?_⟩ <;>
          simp [dispatch, hreg, hsan, eventsOrdered, isDeniedEvent, isAttemptEvent, Except.isOk, Except.toBool]
      | typeError f =>
        refine ⟨?_, ?_, ?_⟩ <;>
          simp [dispatch, hreg, hsan, eventsOrdered, isAttemptEvent, Except.isOk, Except.toBool]
    · obtain rfl : x = input := sanitize_ok_eq tn input x hsan
      rcases hchk : _check_allowlist inv x with _ | m | ex
      · by_cases hra : requires_approval tn x inv.approval_required_patterns = true
        · by_cases hrq : request_approval cfg.approval_mode approves = true
          · rcases hex : tool.execute x with r | m | _
            · by_cases hsucc : r.success = true
              · refine ⟨?_, ?_, ?_⟩ <;>
                  simp [dispatch, hreg, hsan, hchk, hra, hrq, hex, hsucc,
                    eventsOrdered, isAttemptEvent, isOutcomeEvent, Except.isOk, Except.toBool]
              · have hsucc2 : r.success = false := by simpa using hsucc
                refine ⟨?_, ?_, ?_⟩ <;>
                  simp [dispatch, hreg, hsan, hchk, hra, hrq, hex, hsucc2,
                    eventsOrdered, isAttemptEvent, isOutcomeEvent, Except.isOk, Except.toBool]
            · refine ⟨?_, ?_, ?_⟩ <;>
                simp [dispatch, hreg, hsan, hchk, hra, hrq, hex,
                  eventsOrdered, isAttemptEvent, isOutcomeEvent, Except.isOk, Except.toBool]
            · refine ⟨?_, ?_, ?_⟩ <;>
                simp [dispatch, hreg, hsan, hchk, hra, hrq, hex,
                  eventsOrdered, isAttemptEvent, isOutcomeEvent, Except.isOk, Except.toBool]
          · have hrq2 : request_approval cfg.approval_mode approves = false := by
              simpa using hrq
            refine ⟨?_, ?_, ?_⟩ <;>
              simp [dispatch, hreg, hsan, hchk, hra, hrq2,
                eventsOrdered, isAttemptEvent, isOutcomeEvent, isDeniedEvent, Except.isOk, Except.toBool]
        · have hra2 : requires_approval tn x inv.approval_required_patterns = false := by
            simpa using hra
          rcases hex : tool.execute x with r | m | _
          · by_cases hsucc : r.success = true
            · refine ⟨?_, ?_, ?_⟩ <;>
                simp [dispatch, hreg, hsan, hchk, hra2, hex, hsucc,
                  eventsOrdered, isAttemptEvent, isOutcomeEvent, Except.isOk, Except.toBool]
            · have hsucc2 : r.success = false := by simpa using hsucc
              refine ⟨?_, ?_, ?_⟩ <;>
                simp [dispatch, hreg, hsan, hchk, hra2, hex, hsucc2,
                  eventsOrdered, isAttemptEvent, isOutcomeEvent, Except.isOk, Except.toBool]
          · refine ⟨?_, ?_, ?_⟩ <;>
              simp [dispatch, hreg, hsan, hchk, hra2, hex,
                eventsOrdered, isAttemptEvent, isOutcomeEvent, Except.isOk, Except.toBool]
          · refine ⟨?_, ?_, ?_⟩ <;>
              simp [dispatch, hreg, hsan, hchk, hra2, hex,
                eventsOrdered, isAttemptEvent, isOutcomeEvent, Except.isOk, Except.toBool]
      · refine ⟨?_, ?_, ?_⟩ <;>
          simp [dispatch, hreg, hsan, hchk,
            eventsOrdered, isAttemptEvent, isOutcomeEvent, isDeniedEvent, Except.isOk, Except.toBool]
      · refine ⟨?_, ?_, ?_⟩ <;>
          simp [dispatch, hreg, hsan, hchk, eventsOrdered, isAttemptEvent, Except.isOk, Except.toBool]

end Claims

namespace Claims

open Sanitizer Registry Demo

/-- Witness for the amended C6 theorem at the demo registry and the
denied-path input, whose dispatch returns normally, discharging the
premises of the closing-outcome conjunct at a concrete result. -/
theorem dispatch_audit_order_witness :
    (eventsOrdered (dispatch demoReg demoCfg demoInv true (pystr "read_file")
        serverPathInput).2 = true)
    ∧ ((dispatch demoReg demoCfg demoInv true (pystr "read_file") serverPathInput).2.any
          isAttemptEvent
        = ((demoReg.lookup (pystr "read_file")).isSome
            && (Sanitizer.sanitize (pystr "read_file") serverPathInput).isOk))
    ∧ (∃ e, (dispatch demoReg demoCfg demoInv true (pystr "read_file")
          serverPathInput).2 = [.attempt (pystr "read_file") serverPathInput, e]
        ∧ isOutcomeEvent e = true) :=
  ⟨(dispatch_audit_order demoReg demoCfg demoInv true (pystr "read_file") serverPathInput).1,
   (dispatch_audit_order demoReg demoCfg demoInv true (pystr "read_file") serverPathInput).2.1,
   (dispatch_audit_order demoReg demoCfg demoInv true (pystr "read_file") serverPathInput).2.2
     [(pystr "error", .s (pystr "Operation not permitted by security policy: "
        ++ Allowlist.allowlistDeniedStr (pystr "read:/root/secret") (pystr "bastion")))]
     (by decide) (by decide) (by decide)⟩

end Claims

namespace Claims

open Allowlist

/-- A split never produces the empty list of parts. -/
theorem pySplit_ne_nil (sep : Char) (s : PyStr) : pySplit sep s ≠ [] := by
  induction s with
  | nil => simp [pySplit]
  | cons c rest ih =>
    unfold pySplit
    cases h : pySplit sep rest with
    | nil => exact absurd h ih
    | cons p ps =>
      by_cases hc : c = sep <;> simp [hc]

/-- No part produced by a split contains the separator. -/
theorem not_mem_pySplit (sep : Char) (s : PyStr) :
    ∀ part ∈ pySplit sep s, sep ∉ part := by
  induction s with
  | nil => simp [pySplit]
  | cons c rest ih =>
    intro part hpart
    unfold pySplit at hpart
    cases h : pySplit sep rest with
    | nil => exact absurd h (pySplit_ne_nil sep rest)
    | cons p ps =>
      rw [h] at hpart
      by_cases hc : c = sep
      · simp [hc] at hpart
        rcases hpart with h1 | h1 | h1
        · simp [h1]
        · exact h1 ▸ ih p (h ▸ List.mem_cons_self p ps)
        · exact ih part (h ▸ List.mem_cons_of_mem p h1)
      · simp [hc] at hpart
        rcases hpart with h1 | h1
        · subst h1
          intro hmem
          rcases List.mem_cons.mp hmem with h2 | h2
          · exact hc h2.symm
          · exact ih p (h ▸ List.mem_cons_self p ps) h2
        · exact ih part (h ▸ List.mem_cons_of_mem p h1)

/-- Splitting a separator-free string yields that string as the only
part. -/
theorem pySplit_of_not_mem (sep : Char) (s : PyStr) (h : sep ∉ s) :
    pySplit sep s = [s] := by
  induction s with
  | nil => rfl
  | cons c rest ih =>
    have hc : ¬ c = sep := fun hcs => h (hcs ▸ List.mem_cons_self c rest)
    have hrest : sep ∉ rest := fun hm => h (List.mem_cons_of_mem c hm)
    unfold pySplit
    rw [ih hrest]
    simp [hc]

/-- Splitting at an explicit separator occurrence after a separator-free
block peels off that block. -/
theorem pySplit_append_cons (sep : Char) (xs t : PyStr) (h : sep ∉ xs) :
    pySplit sep (xs ++ sep :: t) = xs :: pySplit sep t := by
  induction xs with
  | nil =>
    show pySplit sep (sep :: t) = [] :: pySplit sep t
    simp only [pySplit]
    cases h' : pySplit sep t with
    | nil => exact absurd h' (pySplit_ne_nil sep t)
    | cons p ps => simp
  | cons c xs ih =>
    have hc : ¬ c = sep := fun hcs => h (hcs ▸ List.mem_cons_self c xs)
    have hxs : sep ∉ xs := fun hm => h (List.mem_cons_of_mem c hm)
    show pySplit sep (c :: (xs ++ sep :: t)) = (c :: xs) :: pySplit sep t
    simp only [pySplit]
    rw [ih hxs]
    simp [hc]

/-- A join of non-empty, separator-free parts splits back to the parts. -/
theorem pySplit_pyJoin (sep : Char) (parts : List PyStr) (hne : parts ≠ [])
    (h : ∀ part ∈ parts, sep ∉ part) :
    pySplit sep (pyJoin sep parts) = parts := by
  induction parts with
  | nil => exact absurd rfl hne
  | cons p ps ih =>
    cases ps with
    | nil =>
      show pySplit sep (pyJoin sep [p]) = [p]
      exact pySplit_of_not_mem sep p (h p (List.mem_cons_self p []))
    | cons q ps2 =>
      show pySplit sep (p ++ sep :: pyJoin sep (q :: ps2)) = p :: q :: ps2
      rw [pySplit_append_cons sep p _ (h p (List.mem_cons_self p _))]
      rw [ih (by simp) (fun part hp => h part (List.mem_cons_of_mem p hp))]

/-- Splitting after a run of leading separators yields a run of empty
parts. -/
theorem pySplit_replicate_append (sep : Char) (i : Nat) (t : PyStr) :
    pySplit sep (List.replicate i sep ++ t) = List.replicate i [] ++ pySplit sep t := by
  induction i with
  | zero => simp
  | succ i ih =>
    show pySplit sep (sep :: (List.replicate i sep ++ t)) = _
    simp only [pySplit]
    rw [ih]
    cases i with
    | zero =>
      simp only [List.replicate, List.nil_append]
      cases h' : pySplit sep t with
      | nil => exact absurd h' (pySplit_ne_nil sep t)
      | cons p ps => simp [List.replicate_succ]
    | succ j =>
      simp [List.replicate_succ]

end Claims

namespace Claims

open Allowlist

/-- A `..`-shaped list whose last element is `..` consists of `..`s only. -/
theorem all_dd_of_getLast (l : List PyStr) (h : DdPrefixShape l)
    (hl : l.getLast? = some dotdot) : ∀ c ∈ l, c = dotdot := by
  induction l with
  | nil => simp
  | cons a t ih =>
    by_cases ha : a = dotdot
    · subst ha
      have hsh : DdPrefixShape t := by
        unfold DdPrefixShape at h ⊢
        simpa [List.dropWhile] using h
      cases t with
      | nil => simp
      | cons b t2 =>
        have hl2 : (b :: t2).getLast? = some dotdot := by
          rw [List.getLast?_cons_cons] at hl
          exact hl
        intro c hc
        rcases List.mem_cons.mp hc with h1 | h1
        · exact h1
        · exact ih hsh hl2 c h1
    · exfalso
      unfold DdPrefixShape at h
      rw [List.dropWhile_cons_of_neg (by simpa using ha)] at h
      exact h (List.mem_of_getLast?_eq_some hl)

/-- Appending a non-`..` component preserves the `..`-prefix shape. -/
theorem ddShape_append_not_dd (l : List PyStr) (c : PyStr)
    (h : DdPrefixShape l) (hc : c ≠ dotdot) : DdPrefixShape (l ++ [c]) := by
  induction l with
  | nil =>
    unfold DdPrefixShape
    rw [List.nil_append, List.dropWhile_cons_of_neg (by simpa using hc)]
    intro h1
    exact hc (List.mem_singleton.mp h1).symm
  | cons a t ih =>
    by_cases ha : a = dotdot
    · subst ha
      have hsh : DdPrefixShape t := by
        unfold DdPrefixShape at h ⊢
        simpa [List.dropWhile] using h
      unfold DdPrefixShape
      rw [List.cons_append, List.dropWhile_cons_of_pos (by simp)]
      exact ih hsh
    · unfold DdPrefixShape at h ⊢
      rw [List.dropWhile_cons_of_neg (by simpa using ha)] at h
      rw [List.cons_append, List.dropWhile_cons_of_neg (by simpa using ha)]
      intro hmem
      rcases List.mem_cons.mp hmem with h1 | h1
      · exact h (by rw [h1]; exact List.mem_cons_self a t)
      · rcases List.mem_append.mp h1 with h2 | h2
        · exact h (List.mem_cons_of_mem a h2)
        · exact hc (List.mem_singleton.mp h2).symm

/-- Appending a `..` to an all-`..` list preserves the shape. -/
theorem ddShape_append_dd (l : List PyStr) (h : ∀ c ∈ l, c = dotdot) :
    DdPrefixShape (l ++ [dotdot]) := by
  unfold DdPrefixShape
  have hall : ∀ x ∈ l ++ [dotdot], (fun c : PyStr => decide (c = dotdot)) x = true := by
    intro x hx
    rcases List.mem_append.mp hx with h1 | h1
    · simp [h x h1]
    · simp [List.mem_singleton.mp h1]
  rw [List.dropWhile_eq_nil_iff.mpr hall]
  simp

/-- Dropping the last element preserves the `..`-prefix shape. -/
theorem ddShape_dropLast (l : List PyStr) (h : DdPrefixShape l) :
    DdPrefixShape l.dropLast := by
  induction l with
  | nil => simpa using h
  | cons a t ih =>
    cases t with
    | nil =>
      unfold DdPrefixShape
      simp
    | cons b t2 =>
      by_cases ha : a = dotdot
      · subst ha
        have hsh : DdPrefixShape (b :: t2) := by
          unfold DdPrefixShape at h ⊢
          simpa [List.dropWhile] using h
        have hres := ih hsh
        unfold DdPrefixShape at hres ⊢
        rw [List.dropLast_cons_of_ne_nil (by simp)]
        rw [List.dropWhile_cons_of_pos (by simp)]
        exact hres
      · unfold DdPrefixShape at h ⊢
        rw [List.dropWhile_cons_of_neg (by simpa using ha)] at h
        rw [List.dropLast_cons_of_ne_nil (by simp)]
        rw [List.dropWhile_cons_of_neg (by simpa using ha)]
        intro hmem
        apply h
        rcases List.mem_cons.mp hmem with h1 | h1
        · rw [h1]; exact List.mem_cons_self a (b :: t2)
        · exact List.mem_cons_of_mem a ((List.dropLast_sublist (b :: t2)).subset h1)

end Claims

namespace Claims

open Allowlist

/-- Convenience equations for `normStep`. -/
theorem normStep_skip (i : Nat) (acc : List PyStr) (comp : PyStr)
    (h : comp = [] ∨ comp = ['.']) : normStep i acc comp = acc := by
  unfold normStep
  rw [if_pos h]

/-- The append branch of `normStep`. -/
theorem normStep_append (i : Nat) (acc : List PyStr) (comp : PyStr)
    (h1 : ¬ (comp = [] ∨ comp = ['.']))
    (h2 : comp ≠ dotdot ∨ (i = 0 ∧ acc = []) ∨ (acc ≠ [] ∧ acc.getLast? = some dotdot)) :
    normStep i acc comp = acc ++ [comp] := by
  unfold normStep
  rw [if_neg h1, if_pos h2]

/-- A clean non-`..` component is always appended. -/
theorem normStep_clean (i : Nat) (acc : List PyStr) (comp : PyStr)
    (h1 : CleanComp comp) (h2 : comp ≠ dotdot) :
    normStep i acc comp = acc ++ [comp] :=
  normStep_append i acc comp (by
    rintro (h | h)
    · exact h1.1 h
    · exact h1.2.1 h) (Or.inl h2)

/-- One `normStep` preserves cleanliness, the absence of `..` on absolute
paths, and the `..`-prefix shape on relative paths. -/
theorem normStep_inv (i : Nat) (acc : List PyStr) (comp : PyStr)
    (h1 : ∀ c ∈ acc, CleanComp c)
    (h2 : i = 0 → DdPrefixShape acc)
    (h3 : i ≠ 0 → dotdot ∉ acc)
    (hcomp : '/' ∉ comp) :
    (∀ c ∈ normStep i acc comp, CleanComp c)
    ∧ (i = 0 → DdPrefixShape (normStep i acc comp))
    ∧ (i ≠ 0 → dotdot ∉ normStep i acc comp) := by
  by_cases hskip : comp = [] ∨ comp = ['.']
  · rw [normStep_skip i acc comp hskip]
    exact ⟨h1, h2, h3⟩
  · have hclean : CleanComp comp :=
      ⟨fun h => hskip (Or.inl h), fun h => hskip (Or.inr h), hcomp⟩
    by_cases happ : comp ≠ dotdot ∨ (i = 0 ∧ acc = []) ∨ (acc ≠ [] ∧ acc.getLast? = some dotdot)
    · rw [normStep_append i acc comp hskip happ]
      refine ⟨?_, ?_, ?_⟩
      · intro c hc
        rcases List.mem_append.mp hc with h | h
        · exact h1 c h
        · exact (List.mem_singleton.mp h) ▸ hclean
      · intro hi0
        by_cases hdd : comp = dotdot
        · subst hdd
          rcases happ with h | ⟨_, hnil⟩ | ⟨hne, hlast⟩
          · exact absurd rfl h
          · subst hnil
            exact ddShape_append_dd [] (by simp)
          · exact ddShape_append_dd acc (all_dd_of_getLast acc (h2 hi0) hlast)
        · exact ddShape_append_not_dd acc comp (h2 hi0) hdd
      · intro hi0
        have hdd : comp ≠ dotdot := by
          rcases happ with h | ⟨hz, _⟩ | ⟨_, hlast⟩
          · exact h
          · exact absurd hz hi0
          · intro _
            exact h3 hi0 (List.mem_of_getLast?_eq_some hlast)
        intro hmem
        rcases List.mem_append.mp hmem with h | h
        · exact h3 hi0 h
        · exact hdd ((List.mem_singleton.mp h).symm ▸ rfl)
    · by_cases hne : acc ≠ []
      · have hpop : normStep i acc comp = acc.dropLast := by
          unfold normStep
          rw [if_neg hskip, if_neg happ, if_pos hne]
        rw [hpop]
        refine ⟨?_, ?_, ?_⟩
        · intro c hc
          exact h1 c ((List.dropLast_sublist acc).subset hc)
        · intro hi0
          exact ddShape_dropLast acc (h2 hi0)
        · intro hi0 hmem
          exact h3 hi0 ((List.dropLast_sublist acc).subset hmem)
      · have hid : normStep i acc comp = acc := by
          unfold normStep
          rw [if_neg hskip, if_neg happ, if_neg hne]
        rw [hid]
        exact ⟨h1, h2, h3⟩

/-- The `normStep` fold preserves all three invariants. -/
theorem foldl_normStep_inv (i : Nat) (comps : List PyStr) (acc : List PyStr)
    (h1 : ∀ c ∈ acc, CleanComp c)
    (h2 : i = 0 → DdPrefixShape acc)
    (h3 : i ≠ 0 → dotdot ∉ acc)
    (hcomps : ∀ c ∈ comps, '/' ∉ c) :
    (∀ c ∈ comps.foldl (normStep i) acc, CleanComp c)
    ∧ (i = 0 → DdPrefixShape (comps.foldl (normStep i) acc))
    ∧ (i ≠ 0 → dotdot ∉ comps.foldl (normStep i) acc) := by
  induction comps generalizing acc with
  | nil => exact ⟨h1, h2, h3⟩
  | cons c rest ih =>
    have hstep := normStep_inv i acc c h1 h2 h3 (hcomps c (List.mem_cons_self c rest))
    exact ih (normStep i acc c) hstep.1 hstep.2.1 hstep.2.2
      (fun d hd => hcomps d (List.mem_cons_of_mem c hd))

end Claims

namespace Claims

open Allowlist

/-- Folding clean non-`..` components only appends them. -/
theorem foldl_normStep_clean (i : Nat) (l : List PyStr)
    (h : ∀ c ∈ l, CleanComp c ∧ c ≠ dotdot) :
    ∀ acc, l.foldl (normStep i) acc = acc ++ l := by
  induction l with
  | nil => intro acc; simp
  | cons c rest ih =>
    intro acc
    have hc := h c (List.mem_cons_self c rest)
    show (rest.foldl (normStep i) (normStep i acc c)) = acc ++ c :: rest
    rw [normStep_clean i acc c hc.1 hc.2,
      ih (fun d hd => h d (List.mem_cons_of_mem c hd))]
    simp

/-- The last element of a non-empty replicate. -/
theorem getLast_replicate_dd (k : Nat) :
    (List.replicate (k + 1) dotdot).getLast? = some dotdot := by
  induction k with
  | zero => rfl
  | succ j ih =>
    rw [List.replicate_succ, List.replicate_succ, List.getLast?_cons_cons,
      ← List.replicate_succ]
    exact ih

/-- Folding a run of `..`s from an all-`..` accumulator on a relative path
extends the run; the clean remainder is then appended. -/
theorem foldl_normStep_dd (m : Nat) (rest : List PyStr)
    (h : ∀ c ∈ rest, CleanComp c ∧ c ≠ dotdot) :
    ∀ k, (List.replicate m dotdot ++ rest).foldl (normStep 0) (List.replicate k dotdot)
      = List.replicate (k + m) dotdot ++ rest := by
  induction m with
  | zero =>
    intro k
    simp only [List.replicate, List.nil_append, Nat.add_zero]
    exact foldl_normStep_clean 0 rest h _
  | succ m ih =>
    intro k
    have hstep : normStep 0 (List.replicate k dotdot) dotdot
        = List.replicate (k + 1) dotdot := by
      rw [normStep_append 0 _ dotdot (by decide) ?_]
      · rw [← List.replicate_succ' k dotdot]
      · cases k with
        | zero => exact Or.inr (Or.inl ⟨rfl, rfl⟩)
        | succ j =>
          refine Or.inr (Or.inr ⟨by simp, ?_⟩)
          exact getLast_replicate_dd j
    show (List.replicate m dotdot ++ rest).foldl (normStep 0)
        (normStep 0 (List.replicate k dotdot) dotdot) = _
    rw [hstep, ih (k + 1)]
    have harith : k + 1 + m = k + (m + 1) := by omega
    rw [harith]

/-- Empty components are skipped by the fold. -/
theorem foldl_normStep_empties (i : Nat) (j : Nat) (acc : List PyStr) :
    (List.replicate j ([] : PyStr)).foldl (normStep i) acc = acc := by
  induction j generalizing acc with
  | zero => rfl
  | succ j ih =>
    rw [List.replicate_succ]
    show (List.replicate j ([] : PyStr)).foldl (normStep i) (normStep i acc []) = acc
    rw [normStep_skip i acc [] (Or.inl rfl)]
    exact ih acc

/-- The slash-count of a path assembled from leading slashes and a body
not starting with a slash. -/
theorem initialSlashes_replicate (i : Nat) (t : PyStr)
    (hi : i = 0 ∨ i = 1 ∨ i = 2)
    (ht : ∀ c, t.head? = some c → c ≠ '/') :
    initialSlashes (List.replicate i '/' ++ t) = i := by
  rcases hi with h | h | h <;> subst h
  · cases t with
    | nil => rfl
    | cons c t2 =>
      have hc : c ≠ '/' := ht c rfl
      unfold initialSlashes
      rw [if_neg (by simp [hc])]
  · cases t with
    | nil => rfl
    | cons c t2 =>
      have hc : c ≠ '/' := ht c rfl
      show initialSlashes ('/' :: c :: t2) = 1
      unfold initialSlashes
      rw [if_pos (by simp), if_neg (by simp [hc])]
  · cases t with
    | nil => rfl
    | cons c t2 =>
      have hc : c ≠ '/' := ht c rfl
      show initialSlashes ('/' :: '/' :: c :: t2) = 2
      unfold initialSlashes
      rw [if_pos (by simp), if_pos (by simp [hc])]

/-- The slash-count is always 0, 1 or 2. -/
theorem initialSlashes_cases (p : PyStr) :
    initialSlashes p = 0 ∨ initialSlashes p = 1 ∨ initialSlashes p = 2 := by
  unfold initialSlashes
  split
  · split
    · exact Or.inr (Or.inr rfl)
    · exact Or.inr (Or.inl rfl)
  · exact Or.inl rfl

/-- An absolute path has a positive slash-count. -/
theorem initialSlashes_ne_zero (p : PyStr) (h : p.take 1 = ['/']) :
    initialSlashes p ≠ 0 := by
  unfold initialSlashes
  rw [if_pos h]
  split <;> simp

end Claims

namespace Claims

open Allowlist

/-- The head of a join whose first part is non-empty. -/
theorem pyJoin_head_cons (sep a : Char) (t : PyStr) (rest : List PyStr) :
    (pyJoin sep ((a :: t) :: rest)).head? = some a := by
  cases rest <;> simp [pyJoin]

/-- Normalized output is a fixed point of `normpath`. -/
theorem normpath_fix (i : Nat) (nc : List PyStr)
    (hi : i = 0 ∨ i = 1 ∨ i = 2)
    (hclean : ∀ c ∈ nc, CleanComp c)
    (hsh : i = 0 → DdPrefixShape nc)
    (hdd : i ≠ 0 → dotdot ∉ nc)
    (hne : List.replicate i '/' ++ pyJoin '/' nc ≠ []) :
    normpath (List.replicate i '/' ++ pyJoin '/' nc)
      = List.replicate i '/' ++ pyJoin '/' nc := by
  cases nc with
  | nil =>
    rcases hi with h | h | h <;> subst h
    · exact absurd (by simp [pyJoin]) hne
    · decide
    · decide
  | cons c0 rest =>
    have hc0 : CleanComp c0 := hclean c0 (List.mem_cons_self c0 rest)
    have hhead : ∀ c, (pyJoin '/' (c0 :: rest)).head? = some c → c ≠ '/' := by
      intro c hc
      cases c0 with
      | nil => exact absurd rfl hc0.1
      | cons a t =>
        rw [pyJoin_head_cons] at hc
        have hac : a = c := by injection hc
        subst hac
        intro ha
        exact hc0.2.2 (ha ▸ List.mem_cons_self a t)
    have hq : initialSlashes (List.replicate i '/' ++ pyJoin '/' (c0 :: rest)) = i :=
      initialSlashes_replicate i _ hi hhead
    have hsplit : pySplit '/' (List.replicate i '/' ++ pyJoin '/' (c0 :: rest))
        = List.replicate i [] ++ (c0 :: rest) := by
      rw [pySplit_replicate_append,
        pySplit_pyJoin '/' (c0 :: rest) (by simp) (fun part hp => (hclean part hp).2.2)]
    have hfold : (List.replicate i [] ++ (c0 :: rest)).foldl (normStep i) [] = c0 :: rest := by
      rw [List.foldl_append, foldl_normStep_empties]
      rcases hi with h | h | h
      · subst h
        have hshape := hsh rfl
        have hdecomp := List.takeWhile_append_dropWhile
          (fun c : PyStr => decide (c = dotdot)) (c0 :: rest)
        have htw : (c0 :: rest).takeWhile (fun c : PyStr => decide (c = dotdot))
            = List.replicate
                ((c0 :: rest).takeWhile (fun c : PyStr => decide (c = dotdot))).length
                dotdot :=
          List.eq_replicate_of_mem (fun b hb => by simpa using List.mem_takeWhile_imp hb)
        have hdw : ∀ c ∈ (c0 :: rest).dropWhile (fun c : PyStr => decide (c = dotdot)),
            CleanComp c ∧ c ≠ dotdot := by
          intro c hc
          refine ⟨hclean c ?_, ?_⟩
          · rw [← hdecomp]
            exact List.mem_append.mpr (Or.inr hc)
          · intro he
            exact hshape (he ▸ hc)
        conv_lhs => rw [← hdecomp, htw]
        conv_rhs => rw [← hdecomp, htw]
        have := foldl_normStep_dd
          ((c0 :: rest).takeWhile (fun c : PyStr => decide (c = dotdot))).length
          ((c0 :: rest).dropWhile (fun c : PyStr => decide (c = dotdot))) hdw 0
        simpa using this
      · subst h
        have hl : ∀ c ∈ c0 :: rest, CleanComp c ∧ c ≠ dotdot := by
          intro c hc
          exact ⟨hclean c hc, fun he => (hdd (by simp)) (he ▸ hc)⟩
        simpa using foldl_normStep_clean 1 (c0 :: rest) hl []
      · subst h
        have hl : ∀ c ∈ c0 :: rest, CleanComp c ∧ c ≠ dotdot := by
          intro c hc
          exact ⟨hclean c hc, fun he => (hdd (by simp)) (he ▸ hc)⟩
        simpa using foldl_normStep_clean 2 (c0 :: rest) hl []
    unfold normpath
    rw [if_neg hne, hq, hsplit, hfold, if_neg hne]

/-- The `normpath` embedding is idempotent: normalization fixes its own
output, so every path-permission decision depends only on the normalized
path. -/
theorem normpath_idem (p : PyStr) : normpath (normpath p) = normpath p := by
  by_cases hp : p = []
  · subst hp
    decide
  · have hInv := foldl_normStep_inv (initialSlashes p) (pySplit '/' p) []
      (by intro c hc; exact absurd hc (List.not_mem_nil c))
      (fun _ => by unfold DdPrefixShape; simp)
      (fun _ => by simp)
      (not_mem_pySplit '/' p)
    by_cases hres : List.replicate (initialSlashes p) '/'
        ++ pyJoin '/' ((pySplit '/' p).foldl (normStep (initialSlashes p)) []) = []
    · have hval : normpath p = ['.'] := by
        unfold normpath
        rw [if_neg hp, if_pos hres]
      rw [hval]
      decide
    · have hval : normpath p = List.replicate (initialSlashes p) '/'
          ++ pyJoin '/' ((pySplit '/' p).foldl (normStep (initialSlashes p)) []) := by
        unfold normpath
        rw [if_neg hp, if_neg hres]
      rw [hval]
      exact normpath_fix (initialSlashes p) _ (initialSlashes_cases p)
        hInv.1 hInv.2.1 hInv.2.2 hres

end Claims

namespace Claims

open Allowlist Demo

/-- C4 counterexample: a path containing `..` that `is_path_readable`
accepts — normalization resolves `/var/log/../log/syslog` to
`/var/log/syslog`, which is under the allowed read prefix `/var/log/`. -/
theorem dotdot_path_readable :
    strContains (pystr "/var/log/../log/syslog") (pystr "..") = true
    ∧ is_path_readable (pystr "/var/log/../log/syslog") demoPerms = true := by
  decide

/-- C4 amended: the allowlist does not repeat the `..` rejection; instead
`is_path_readable` resolves `.` and `..` segments through `normpath`
before prefix-matching, so a `..` path is readable exactly when its
resolved form is.  What holds: normalization is idempotent, so the
decision depends only on the normalized path, and for an absolute path
the normalized form contains no `..` component at all. -/
theorem is_path_readable_normalized (p : PyStr) (perms : RolePermissions) :
    (is_path_readable (normpath p) perms = is_path_readable p perms)
    ∧ (p.take 1 = ['/'] → dotdot ∉ pySplit '/' (normpath p)) := by
  constructor
  · simp only [is_path_readable, _normalize_path, normpath_idem]
  · intro habs
    have hi0 : initialSlashes p ≠ 0 := initialSlashes_ne_zero p habs
    have hp : p ≠ [] := by
      intro h
      subst h
      simp at habs
    have hInv := foldl_normStep_inv (initialSlashes p) (pySplit '/' p) []
      (by intro c hc; exact absurd hc (List.not_mem_nil c))
      (fun _ => by unfold DdPrefixShape; simp)
      (fun _ => by simp)
      (not_mem_pySplit '/' p)
    have hddnc := hInv.2.2 hi0
    by_cases hres : List.replicate (initialSlashes p) '/'
        ++ pyJoin '/' ((pySplit '/' p).foldl (normStep (initialSlashes p)) []) = []
    · exfalso
      rcases initialSlashes_cases p with h | h | h
      · exact hi0 h
      · rw [h] at hres
        simp [List.replicate_succ] at hres
      · rw [h] at hres
        simp [List.replicate_succ] at hres
    · have hval : normpath p = List.replicate (initialSlashes p) '/'
          ++ pyJoin '/' ((pySplit '/' p).foldl (normStep (initialSlashes p)) []) := by
        unfold normpath
        rw [if_neg hp, if_neg hres]
      rw [hval]
      cases hnc : (pySplit '/' p).foldl (normStep (initialSlashes p)) [] with
      | nil =>
        have : List.replicate (initialSlashes p) '/' ++ pyJoin '/' ([] : List PyStr)
            = List.replicate (initialSlashes p) '/' ++ [] := by
          simp [pyJoin]
        rw [this, pySplit_replicate_append]
        intro hmem
        rcases List.mem_append.mp hmem with h | h
        · exact absurd (List.eq_of_mem_replicate h) (by decide)
        · simp [pySplit] at h
          exact absurd h.symm (by decide)
      | cons c0 rest =>
        have hclean : ∀ c ∈ (c0 :: rest), CleanComp c := by
          rw [← hnc]
          exact hInv.1
        have hdd2 : dotdot ∉ (c0 :: rest) := by
          rw [← hnc]
          exact hddnc
        have hsplit : pySplit '/' (List.replicate (initialSlashes p) '/'
              ++ pyJoin '/' (c0 :: rest))
            = List.replicate (initialSlashes p) [] ++ (c0 :: rest) := by
          rw [pySplit_replicate_append,
            pySplit_pyJoin '/' (c0 :: rest) (by simp)
              (fun part hpp => (hclean part hpp).2.2)]
        rw [hsplit]
        intro hmem
        rcases List.mem_append.mp hmem with h | h
        · exact absurd (List.eq_of_mem_replicate h) (by decide)
        · exact hdd2 h

/-- Witness for the amended C4 theorem at the counterexample path and the
demo permissions, with the absolute-path hypothesis discharged. -/
theorem is_path_readable_normalized_witness :
    (is_path_readable (normpath (pystr "/var/log/../log/syslog")) demoPerms
      = is_path_readable (pystr "/var/log/../log/syslog") demoPerms)
    ∧ dotdot ∉ pySplit '/' (normpath (pystr "/var/log/../log/syslog")) :=
  ⟨(is_path_readable_normalized (pystr "/var/log/../log/syslog") demoPerms).1,
   (is_path_readable_normalized (pystr "/var/log/../log/syslog") demoPerms).2 (by decide)⟩

end Claims
